import Mathlib

/-
Verification of the BRSP serial-bridge core (brsp.go) against its
specification.

The ring queue `brspQueue` and the engine event handlers are embedded as
pure Lean functions over explicit state.  Byte slices are modeled as
`List Nat` (one `Nat` per byte); Go's `copy` into a slice is modeled by
`copyInto`, which writes as many source bytes as fit starting at a given
offset.  The Go backing array `q.data` is a fixed-length list whose length
plays the role of `len(q.data)`.
-/

set_option maxRecDepth 100000

namespace GattBrsp

/-- Model of Go `copy(dst[start:], src)`: writes the bytes of `src` into
`dst` starting at index `start`, stopping at the end of `dst`; returns the
updated buffer.  The number of bytes written is `min src.length (dst.length - start)`. -/
def copyInto : List Nat → Nat → List Nat → List Nat
  | dst, _, [] => dst
  | dst, start, b :: bs =>
    if start < dst.length then copyInto (dst.set start b) (start + 1) bs
    else dst

/-- `brspQueue` from brsp.go: a growable ring buffer with head/tail cursors. -/
structure brspQueue where
  data : List Nat
  head : Nat
  tail : Nat
  deriving DecidableEq, Repr

/-- Initial (zero) queue state: `brspQueue` zero value in Go. -/
def zeroQueue : brspQueue := ⟨[], 0, 0⟩

/-- `brspQueue.queued` from brsp.go lines 334-340. -/
def brspQueue.queued (q : brspQueue) : Nat :=
  if q.tail ≤ q.head then q.head - q.tail
  else q.data.length + q.head - q.tail

/-- `brspQueue.read` from brsp.go lines 342-364.  The Go destination slice
`p` is represented by its capacity `cap`; the function returns the bytes
copied out (so the Go return value `n` is the length of the first
component) together with the updated queue. -/
def brspQueue.read (q : brspQueue) (cap : Nat) : List Nat × brspQueue :=
  if q.tail ≤ q.head then
    let n := min cap (q.head - q.tail)
    let out := (q.data.drop q.tail).take n
    let t := q.tail + n
    if t = q.head then (out, ⟨q.data, 0, 0⟩) else (out, ⟨q.data, q.head, t⟩)
  else
    let n := min cap (q.data.length - q.tail)
    let out1 := (q.data.drop q.tail).take n
    let t := q.tail + n
    if t = q.data.length then
      let m := min (cap - n) q.head
      let out := out1 ++ q.data.take m
      if m = q.head then (out, ⟨q.data, 0, 0⟩) else (out, ⟨q.data, q.head, m⟩)
    else
      if t = q.head then (out1, ⟨q.data, 0, 0⟩) else (out1, ⟨q.data, q.head, t⟩)

/-- The copy phase of `brspQueue.write` (brsp.go lines 382-390): copy `p`
in at most two pieces (up to the buffer end, then from offset 0) and
advance `head`. -/
def brspQueue.writeCopy (q : brspQueue) (p : List Nat) : brspQueue :=
  let n := q.data.length - q.head
  if n < p.length then
    ⟨copyInto (copyInto q.data q.head (p.take n)) 0 (p.drop n),
     (p.drop n).length, q.tail⟩
  else
    ⟨copyInto q.data q.head p, q.head + p.length, q.tail⟩

/-- The growth block of `brspQueue.write` (brsp.go lines 369-380): allocate
a zeroed buffer `need` bytes larger (`need = max 256 (shortfall+1)`), read
the whole queued content into its front, and reset the cursors. -/
def brspQueue.grow (q : brspQueue) (p : List Nat) : brspQueue :=
  let need := max 256 (p.length - (q.data.length - q.queued) + 1)
  let out := (q.read (q.data.length + need)).1
  ⟨out ++ List.replicate (q.data.length + need - out.length) 0, out.length, 0⟩

/-- `brspQueue.write` from brsp.go lines 366-391: grow when the payload
would not fit strictly, then run the copy phase. -/
def brspQueue.write (q : brspQueue) (p : List Nat) : brspQueue :=
  let q1 := if p.length ≥ q.data.length - q.queued then q.grow p else q
  q1.writeCopy p

/-- The abstract byte content of a ring queue: the bytes from `tail` up to
`head`, wrapping past the buffer end when `head < tail`. -/
def brspQueue.contents (q : brspQueue) : List Nat :=
  if q.tail ≤ q.head then (q.data.drop q.tail).take (q.head - q.tail)
  else q.data.drop q.tail ++ q.data.take q.head

/-- Well-formedness: both cursors lie within the backing buffer. -/
def brspQueue.QInv (q : brspQueue) : Prop :=
  q.head ≤ q.data.length ∧ q.tail ≤ q.data.length

instance (q : brspQueue) : Decidable q.QInv := by unfold brspQueue.QInv; infer_instance

theorem copyInto_length (dst : List Nat) (start : Nat) (src : List Nat) :
    (copyInto dst start src).length = dst.length := by
  induction src generalizing dst start with
  | nil => rfl
  | cons b bs ih =>
    unfold copyInto
    by_cases h : start < dst.length
    · rw [if_pos h, ih, List.length_set]
    · rw [if_neg h]

theorem copyInto_eq (src : List Nat) (dst : List Nat) (start : Nat) :
    copyInto dst start src =
      dst.take start ++ src.take (dst.length - start) ++ dst.drop (start + src.length) := by
  induction src generalizing dst start with
  | nil =>
    simp [copyInto]
  | cons b bs ih =>
    unfold copyInto
    by_cases h : start < dst.length
    · rw [if_pos h, ih]
      have hset : dst.set start b = dst.take start ++ b :: dst.drop (start + 1) :=
        List.set_eq_take_cons_drop b h
      have hlen : (dst.set start b).length = dst.length := List.length_set dst start b
      rw [hlen, hset]
      have h1 : (dst.take start ++ b :: dst.drop (start + 1)).take (start + 1)
          = dst.take start ++ [b] := by
        rw [List.take_append_eq_append_take]
        have : (dst.take start).length = start := by
          rw [List.length_take]; omega
        rw [this, List.take_of_length_le (by rw [this]; omega)]
        simp
      have h2 : (dst.take start ++ b :: dst.drop (start + 1)).drop (start + 1 + bs.length)
          = dst.drop (start + (bs.length + 1)) := by
        rw [List.drop_append_eq_append_drop]
        have hl : (dst.take start).length = start := by
          rw [List.length_take]; omega
        rw [hl, List.drop_eq_nil_of_le (by omega)]
        have : start + 1 + bs.length - start = 1 + bs.length := by omega
        rw [this]
        simp only [List.nil_append]
        rw [show (1 + bs.length) = bs.length + 1 by omega]
        simp only [List.drop_succ_cons]
        rw [List.drop_drop]
        congr 1
        omega
      rw [h1, h2]
      have h3 : (b :: bs).take (dst.length - start) = b :: bs.take (dst.length - (start + 1)) := by
        have : dst.length - start = (dst.length - (start + 1)) + 1 := by omega
        rw [this, List.take_succ_cons]
      rw [h3]
      simp
    · rw [if_neg h]
      have h1 : dst.take start = dst := List.take_of_length_le (by omega)
      have h2 : (b :: bs).take (dst.length - start) = [] := by
        have : dst.length - start = 0 := by omega
        rw [this, List.take_zero]
      have h3 : dst.drop (start + (b :: bs).length) = [] :=
        List.drop_eq_nil_of_le (by omega)
      rw [h1, h2, h3, List.append_nil, List.append_nil]

theorem contents_length (q : brspQueue) (h : q.QInv) :
    q.contents.length = q.queued := by
  obtain ⟨hh, ht⟩ := h
  unfold brspQueue.contents brspQueue.queued
  by_cases hc : q.tail ≤ q.head
  · rw [if_pos hc, if_pos hc, List.length_take, List.length_drop]
    omega
  · rw [if_neg hc, if_neg hc, List.length_append, List.length_drop, List.length_take]
    omega

theorem queued_le (q : brspQueue) (h : q.QInv) : q.queued ≤ q.data.length := by
  obtain ⟨hh, ht⟩ := h
  unfold brspQueue.queued
  by_cases hc : q.tail ≤ q.head
  · rw [if_pos hc]; omega
  · rw [if_neg hc]; omega

theorem contents_mk_le (L : List Nat) (h t : Nat) (hth : t ≤ h) :
    brspQueue.contents ⟨L, h, t⟩ = (L.drop t).take (h - t) := by
  simp [brspQueue.contents, hth]

theorem contents_mk_gt (L : List Nat) (h t : Nat) (hth : ¬ t ≤ h) :
    brspQueue.contents ⟨L, h, t⟩ = L.drop t ++ L.take h := by
  simp [brspQueue.contents, hth]

theorem contents_reset (L : List Nat) : brspQueue.contents ⟨L, 0, 0⟩ = [] := by
  simp [brspQueue.contents]

theorem QInv_mk (L : List Nat) (h t : Nat) (h1 : h ≤ L.length) (h2 : t ≤ L.length) :
    brspQueue.QInv ⟨L, h, t⟩ := ⟨h1, h2⟩

/-- Correctness of `brspQueue.read` against the abstract contents: it
returns the first `cap` queued bytes, leaves the rest queued, keeps the
backing buffer, and resets both cursors exactly when it drains the queue. -/
theorem read_spec (q : brspQueue) (cap : Nat) (hq : q.QInv) :
    (q.read cap).1 = q.contents.take cap ∧
    (q.read cap).2.contents = q.contents.drop cap ∧
    (q.read cap).2.QInv ∧
    (q.read cap).2.data = q.data ∧
    ((q.read cap).2.tail < q.data.length ∨
      ((q.read cap).2.head = 0 ∧ (q.read cap).2.tail = 0)) ∧
    ((q.read cap).2.head = (q.read cap).2.tail →
      (q.read cap).2.head = 0 ∧ (q.read cap).2.tail = 0) := by
  obtain ⟨hh, ht⟩ := hq
  have hcq : q.contents = brspQueue.contents ⟨q.data, q.head, q.tail⟩ := rfl
  by_cases hc : q.tail ≤ q.head
  · rw [hcq, contents_mk_le _ _ _ hc]
    by_cases h1 : q.tail + min cap (q.head - q.tail) = q.head
    · have hr : q.read cap =
          ((q.data.drop q.tail).take (min cap (q.head - q.tail)), ⟨q.data, 0, 0⟩) := by
        simp only [brspQueue.read, if_pos hc, if_pos h1]
      rw [hr]
      dsimp only
      refine ⟨?_, ?_, QInv_mk _ _ _ (by omega) (by omega), rfl,
        Or.inr ⟨rfl, rfl⟩, fun _ => ⟨rfl, rfl⟩⟩
      · rw [List.take_take]
      · rw [contents_reset, eq_comm]
        exact List.drop_eq_nil_of_le (by rw [List.length_take, List.length_drop]; omega)
    · have hcap : min cap (q.head - q.tail) = cap := by omega
      have hlt : cap < q.head - q.tail := by omega
      have hr : q.read cap =
          ((q.data.drop q.tail).take (min cap (q.head - q.tail)),
            ⟨q.data, q.head, q.tail + min cap (q.head - q.tail)⟩) := by
        simp only [brspQueue.read, if_pos hc, if_neg h1]
      rw [hr, hcap]
      dsimp only
      refine ⟨?_, ?_, QInv_mk _ _ _ (by omega) (by omega), rfl,
        Or.inl (by omega), fun he => absurd he (by omega)⟩
      · rw [List.take_take, hcap]
      · rw [contents_mk_le _ _ _ (by omega : q.tail + cap ≤ q.head)]
        rw [List.drop_take, List.drop_drop]
        congr 1
        omega
  · have hht : q.head < q.tail := by omega
    rw [hcq, contents_mk_gt _ _ _ hc]
    by_cases h2 : q.tail + min cap (q.data.length - q.tail) = q.data.length
    · have hn : min cap (q.data.length - q.tail) = q.data.length - q.tail := by omega
      have hge : q.data.length - q.tail ≤ cap := by omega
      have hfull : (q.data.drop q.tail).take (q.data.length - q.tail) = q.data.drop q.tail :=
        List.take_of_length_le (by rw [List.length_drop])
      by_cases h3 : min (cap - min cap (q.data.length - q.tail)) q.head = q.head
      · have hr : q.read cap =
            ((q.data.drop q.tail).take (min cap (q.data.length - q.tail)) ++
              q.data.take (min (cap - min cap (q.data.length - q.tail)) q.head),
              ⟨q.data, 0, 0⟩) := by
          simp only [brspQueue.read, if_neg hc, if_pos h2, if_pos h3]
        rw [hn] at hr h3
        rw [hr, h3]
        dsimp only
        refine ⟨?_, ?_, QInv_mk _ _ _ (by omega) (by omega), rfl,
          Or.inr ⟨rfl, rfl⟩, fun _ => ⟨rfl, rfl⟩⟩
        · rw [hfull, eq_comm]
          exact List.take_of_length_le (by
            rw [List.length_append, List.length_drop, List.length_take]; omega)
        · rw [contents_reset, eq_comm]
          exact List.drop_eq_nil_of_le (by
            rw [List.length_append, List.length_drop, List.length_take]; omega)
      · have hm : min (cap - (q.data.length - q.tail)) q.head
            = cap - (q.data.length - q.tail) := by omega
        have hmlt : cap - (q.data.length - q.tail) < q.head := by omega
        have hr : q.read cap =
            ((q.data.drop q.tail).take (min cap (q.data.length - q.tail)) ++
              q.data.take (min (cap - min cap (q.data.length - q.tail)) q.head),
              ⟨q.data, q.head, min (cap - min cap (q.data.length - q.tail)) q.head⟩) := by
          simp only [brspQueue.read, if_neg hc, if_pos h2, if_neg h3]
        rw [hn] at hr
        rw [hr, hm]
        dsimp only
        have h4 : (q.data.drop q.tail).take cap = q.data.drop q.tail :=
          List.take_of_length_le (by rw [List.length_drop]; omega)
        refine ⟨?_, ?_, QInv_mk _ _ _ (by omega) (by omega), rfl,
          Or.inl (by omega), fun he => absurd he (by omega)⟩
        · rw [hfull, List.take_append_eq_append_take, h4, List.length_drop, List.take_take, hm]
        · have e1 : brspQueue.contents ⟨q.data, q.head, cap - (q.data.length - q.tail)⟩ =
              (q.data.drop (cap - (q.data.length - q.tail))).take
                (q.head - (cap - (q.data.length - q.tail))) :=
            contents_mk_le _ _ _ (by omega)
          have e2 : (q.data.drop q.tail).drop cap = [] :=
            List.drop_eq_nil_of_le (by rw [List.length_drop]; omega)
          rw [e1, List.drop_append_eq_append_drop, e2, List.length_drop, List.nil_append,
            List.drop_take]
    · have hn : min cap (q.data.length - q.tail) = cap := by omega
      have hlt : q.tail + cap < q.data.length := by omega
      have h3 : ¬ q.tail + min cap (q.data.length - q.tail) = q.head := by omega
      have hr : q.read cap =
          ((q.data.drop q.tail).take (min cap (q.data.length - q.tail)),
            ⟨q.data, q.head, q.tail + min cap (q.data.length - q.tail)⟩) := by
        simp only [brspQueue.read, if_neg hc, if_neg h2, if_neg h3]
      rw [hn] at hr
      rw [hr]
      dsimp only
      refine ⟨?_, ?_, QInv_mk _ _ _ (by omega) (by omega), rfl,
        Or.inl (by omega), fun he => absurd he (by omega)⟩
      · rw [List.take_append_eq_append_take, List.length_drop,
          (show cap - (q.data.length - q.tail) = 0 by omega), List.take_zero, List.append_nil]
      · rw [contents_mk_gt _ _ _ (by omega : ¬ q.tail + cap ≤ q.head)]
        rw [List.drop_append_eq_append_drop, List.length_drop, List.drop_drop,
          (show cap - (q.data.length - q.tail) = 0 by omega), List.drop_zero]

/-- Correctness of the copy phase: when the payload strictly fits in the
free space, it appends `p` to the queue contents, preserves the buffer
length and the tail cursor, and keeps the head cursor in bounds. -/
theorem writeCopy_spec (q : brspQueue) (p : List Nat) (hq : q.QInv)
    (hfit : q.queued + p.length < q.data.length) :
    (q.writeCopy p).contents = q.contents ++ p ∧
    (q.writeCopy p).data.length = q.data.length ∧
    (q.writeCopy p).head ≤ q.data.length ∧
    (q.writeCopy p).tail = q.tail := by
  obtain ⟨hh, ht⟩ := hq
  have hcq : q.contents = brspQueue.contents ⟨q.data, q.head, q.tail⟩ := rfl
  by_cases hc : q.tail ≤ q.head
  · have hqd : q.queued = q.head - q.tail := by
      unfold brspQueue.queued; rw [if_pos hc]
    rw [hqd] at hfit
    have hcon : q.contents = (q.data.drop q.tail).take (q.head - q.tail) := by
      rw [hcq, contents_mk_le _ _ _ hc]
    have hclen : q.contents.length = q.head - q.tail := by
      rw [hcon, List.length_take, List.length_drop]; omega
    by_cases hb : q.data.length - q.head < p.length
    · -- two-piece copy: up to the buffer end, then from offset 0
      have hr : q.writeCopy p =
          ⟨copyInto (copyInto q.data q.head (p.take (q.data.length - q.head))) 0
             (p.drop (q.data.length - q.head)),
           (p.drop (q.data.length - q.head)).length, q.tail⟩ := by
        simp only [brspQueue.writeCopy, if_pos hb]
      have htk : (p.take (q.data.length - q.head)).length = q.data.length - q.head := by
        rw [List.length_take]; omega
      have hL1 : copyInto q.data q.head (p.take (q.data.length - q.head)) =
          q.data.take q.head ++ p.take (q.data.length - q.head) := by
        rw [copyInto_eq, List.take_take, min_self, htk,
          List.drop_eq_nil_of_le (by omega), List.append_nil]
      have hlen1 : (copyInto q.data q.head (p.take (q.data.length - q.head))).length
          = q.data.length := copyInto_length _ _ _
      have hdlen : (p.drop (q.data.length - q.head)).length
          = p.length - (q.data.length - q.head) := by
        rw [List.length_drop]
      have hdt : p.length - (q.data.length - q.head) < q.tail := by omega
      have hL2 : copyInto (copyInto q.data q.head (p.take (q.data.length - q.head))) 0
            (p.drop (q.data.length - q.head)) =
          p.drop (q.data.length - q.head) ++
            (q.data.take q.head ++ p.take (q.data.length - q.head)).drop
              (p.length - (q.data.length - q.head)) := by
        rw [copyInto_eq, List.take_zero, List.nil_append, hlen1, Nat.sub_zero,
          List.take_of_length_le (by omega), Nat.zero_add, hdlen, hL1]
      rw [hr]
      dsimp only
      refine ⟨?_, by
          simp only [hL2, List.length_append, List.length_drop, List.length_take]
          omega, by rw [hdlen]; omega, rfl⟩
      have hnotle : ¬ q.tail ≤ (p.drop (q.data.length - q.head)).length := by
        rw [hdlen]; omega
      rw [contents_mk_gt _ _ _ hnotle, hL2, hdlen]
      have e1 : (p.drop (q.data.length - q.head) ++
            (q.data.take q.head ++ p.take (q.data.length - q.head)).drop
              (p.length - (q.data.length - q.head))).take
            (p.length - (q.data.length - q.head)) = p.drop (q.data.length - q.head) := by
        rw [List.take_append_eq_append_take, hdlen, Nat.sub_self, List.take_zero,
          List.append_nil]
        exact List.take_of_length_le (by omega)
      have e2 : (p.drop (q.data.length - q.head) ++
            (q.data.take q.head ++ p.take (q.data.length - q.head)).drop
              (p.length - (q.data.length - q.head))).drop q.tail =
          q.contents ++ p.take (q.data.length - q.head) := by
        rw [List.drop_append_eq_append_drop, hdlen,
          List.drop_eq_nil_of_le (by rw [List.length_drop]; omega), List.nil_append,
          List.drop_drop, (show p.length - (q.data.length - q.head) +
            (q.tail - (p.length - (q.data.length - q.head))) = q.tail by omega),
          List.drop_append_eq_append_drop, List.length_take,
          (show q.tail - min q.head q.data.length = 0 by omega), List.drop_zero,
          List.drop_take, hcon]
      rw [e1, e2, List.append_assoc, List.take_append_drop]
    · -- single copy at the head cursor
      have hple : p.length ≤ q.data.length - q.head := by omega
      have hr : q.writeCopy p =
          ⟨copyInto q.data q.head p, q.head + p.length, q.tail⟩ := by
        simp only [brspQueue.writeCopy, if_neg hb]
      have hL : copyInto q.data q.head p =
          q.data.take q.head ++ p ++ q.data.drop (q.head + p.length) := by
        rw [copyInto_eq, List.take_of_length_le hple]
      rw [hr]
      dsimp only
      refine ⟨?_, copyInto_length _ _ _, by omega, rfl⟩
      have hXlen : (q.data.take q.head ++ p).length = q.head + p.length := by
        rw [List.length_append, List.length_take]; omega
      have hdrop : (copyInto q.data q.head p).drop q.tail =
          (q.contents ++ p) ++ q.data.drop (q.head + p.length) := by
        rw [hL, List.drop_append_eq_append_drop, hXlen,
          (show q.tail - (q.head + p.length) = 0 by omega), List.drop_zero,
          List.drop_append_eq_append_drop, List.length_take,
          (show q.tail - min q.head q.data.length = 0 by omega), List.drop_zero,
          List.drop_take, hcon]
      have hce : brspQueue.contents ⟨copyInto q.data q.head p, q.head + p.length, q.tail⟩
          = ((copyInto q.data q.head p).drop q.tail).take (q.head + p.length - q.tail) :=
        contents_mk_le _ _ _ (by omega)
      have hng : (q.contents ++ p).length ≤ q.head + p.length - q.tail := by
        rw [List.length_append, hclen]; omega
      have hz : q.head + p.length - q.tail - (q.contents ++ p).length = 0 := by
        rw [List.length_append, hclen]; omega
      rw [hce, hdrop, List.take_append_eq_append_take,
        List.take_of_length_le hng, hz, List.take_zero, List.append_nil]
  · -- wrapped content: head < tail, the payload fits strictly before tail
    have hht : q.head < q.tail := by omega
    have hqd : q.queued = q.data.length + q.head - q.tail := by
      unfold brspQueue.queued; rw [if_neg hc]
    rw [hqd] at hfit
    have hplt : p.length < q.tail - q.head := by omega
    have hb : ¬ q.data.length - q.head < p.length := by omega
    have hcon : q.contents = q.data.drop q.tail ++ q.data.take q.head := by
      rw [hcq, contents_mk_gt _ _ _ hc]
    have hple : p.length ≤ q.data.length - q.head := by omega
    have hr : q.writeCopy p =
        ⟨copyInto q.data q.head p, q.head + p.length, q.tail⟩ := by
      simp only [brspQueue.writeCopy, if_neg hb]
    have hL : copyInto q.data q.head p =
        q.data.take q.head ++ p ++ q.data.drop (q.head + p.length) := by
      rw [copyInto_eq, List.take_of_length_le hple]
    rw [hr]
    dsimp only
    refine ⟨?_, copyInto_length _ _ _, by omega, rfl⟩
    have hXlen : (q.data.take q.head ++ p).length = q.head + p.length := by
      rw [List.length_append, List.length_take]; omega
    have hce : brspQueue.contents ⟨copyInto q.data q.head p, q.head + p.length, q.tail⟩
        = (copyInto q.data q.head p).drop q.tail ++
          (copyInto q.data q.head p).take (q.head + p.length) :=
      contents_mk_gt _ _ _ (by omega)
    have e1 : (copyInto q.data q.head p).take (q.head + p.length)
        = q.data.take q.head ++ p := by
      rw [hL, List.take_append_eq_append_take, hXlen, Nat.sub_self, List.take_zero,
        List.append_nil]
      exact List.take_of_length_le (by omega)
    have e2 : (copyInto q.data q.head p).drop q.tail = q.data.drop q.tail := by
      rw [hL, List.drop_append_eq_append_drop, hXlen,
        List.drop_eq_nil_of_le (by omega), List.nil_append, List.drop_drop]
      congr 1
      omega
    rw [hce, e1, e2, hcon, List.append_assoc]

/-- The growth block preserves the queue contents, compacting them to
offset 0 of a strictly larger zeroed buffer. -/
theorem grow_spec (q : brspQueue) (p : List Nat) (hq : q.QInv) :
    (q.grow p).contents = q.contents ∧
    (q.grow p).data.length
      = q.data.length + max 256 (p.length - (q.data.length - q.queued) + 1) ∧
    (q.grow p).head = q.contents.length ∧
    (q.grow p).tail = 0 ∧
    (q.grow p).queued = q.contents.length ∧
    (q.grow p).QInv := by
  have hcl : q.contents.length = q.queued := contents_length q hq
  have hql : q.queued ≤ q.data.length := queued_le q hq
  have hout : (q.read (q.data.length
      + max 256 (p.length - (q.data.length - q.queued) + 1))).1 = q.contents := by
    rw [(read_spec q _ hq).1]
    exact List.take_of_length_le (by omega)
  have hr : q.grow p = ⟨q.contents ++ List.replicate
      (q.data.length + max 256 (p.length - (q.data.length - q.queued) + 1)
        - q.contents.length) 0, q.contents.length, 0⟩ := by
    simp only [brspQueue.grow, hout]
  rw [hr]
  dsimp only
  have hdl : (q.contents ++ List.replicate
      (q.data.length + max 256 (p.length - (q.data.length - q.queued) + 1)
        - q.contents.length) 0).length
      = q.data.length + max 256 (p.length - (q.data.length - q.queued) + 1) := by
    rw [List.length_append, List.length_replicate]; omega
  refine ⟨?_, hdl, rfl, rfl, ?_, QInv_mk _ _ _ (by omega) (by omega)⟩
  · rw [contents_mk_le _ _ _ (Nat.zero_le _), List.drop_zero, Nat.sub_zero,
      List.take_append_eq_append_take, List.take_length, Nat.sub_self, List.take_zero,
      List.append_nil]
  · simp [brspQueue.queued]

/-- Correctness of `brspQueue.write`: it appends `p` to the abstract
contents, keeps the queue well-formed and strictly non-full, moves `tail`
only by resetting it to 0 (growth), and never shrinks the buffer. -/
theorem write_spec (q : brspQueue) (p : List Nat) (hq : q.QInv) :
    (q.write p).contents = q.contents ++ p ∧
    (q.write p).QInv ∧
    (q.write p).queued < (q.write p).data.length ∧
    ((q.write p).tail = q.tail ∨ (q.write p).tail = 0) ∧
    q.data.length ≤ (q.write p).data.length := by
  have hcl : q.contents.length = q.queued := contents_length q hq
  have hql : q.queued ≤ q.data.length := queued_le q hq
  by_cases hg : p.length ≥ q.data.length - q.queued
  · have hwr : q.write p = (q.grow p).writeCopy p := by
      simp only [brspQueue.write, if_pos hg]
    obtain ⟨hgc, hgl, hgh, hgt, hgq, hginv⟩ := grow_spec q p hq
    have hfit : (q.grow p).queued + p.length < (q.grow p).data.length := by
      rw [hgq, hgl]; omega
    obtain ⟨hwc, hwl, hwh, hwt⟩ := writeCopy_spec (q.grow p) p hginv hfit
    have hinv : (q.write p).QInv := by
      rw [hwr]
      exact ⟨by rw [← hwl] at hwh; exact hwh, by rw [hwt, hgt]; exact Nat.zero_le _⟩
    refine ⟨by rw [hwr, hwc, hgc], hinv, ?_, Or.inr (by rw [hwr, hwt, hgt]),
      by rw [hwr, hwl, hgl]; omega⟩
    have : (q.write p).contents.length = (q.write p).queued := by
      rw [hwr] at hinv ⊢
      exact contents_length _ hinv
    rw [← this, hwr, hwc, hgc, List.length_append, hwl, hgl]
    omega
  · have hwr : q.write p = q.writeCopy p := by
      simp only [brspQueue.write, if_neg hg]
    have hfit : q.queued + p.length < q.data.length := by omega
    obtain ⟨hwc, hwl, hwh, hwt⟩ := writeCopy_spec q p hq hfit
    have hinv : (q.write p).QInv := by
      rw [hwr]
      exact ⟨by rw [hwl]; exact hwh, by rw [hwt, hwl]; exact hq.2⟩
    refine ⟨by rw [hwr, hwc], hinv, ?_, Or.inl (by rw [hwr, hwt]),
      by rw [hwr, hwl]⟩
    have : (q.write p).contents.length = (q.write p).queued := by
      rw [hwr] at hinv ⊢
      exact contents_length _ hinv
    rw [← this, hwr, hwc, List.length_append, hwl]
    omega

/-- Reachability invariant for queue states produced by `write`/`read`
from the zero state: either still the zero-sized initial buffer, or both
cursors in bounds with `tail` strictly inside and the queue never full. -/
def brspQueue.RInv (q : brspQueue) : Prop :=
  (q.data.length = 0 ∧ q.head = 0 ∧ q.tail = 0) ∨
  (q.head ≤ q.data.length ∧ q.tail < q.data.length ∧ q.queued < q.data.length)

theorem RInv_QInv (q : brspQueue) (h : q.RInv) : q.QInv := by
  rcases h with ⟨h1, h2, h3⟩ | ⟨h1, h2, _⟩
  · exact ⟨by omega, by omega⟩
  · exact ⟨h1, by omega⟩

theorem rinv_zero : zeroQueue.RInv := Or.inl ⟨rfl, rfl, rfl⟩

theorem rinv_read (q : brspQueue) (cap : Nat) (h : q.RInv) : (q.read cap).2.RInv := by
  rcases h with ⟨h1, h2, h3⟩ | ⟨h1, h2, h3⟩
  · rcases q with ⟨d, hd, tl⟩
    simp only at h1 h2 h3
    subst h2 h3
    rw [List.length_eq_zero] at h1
    subst h1
    simp [brspQueue.read, brspQueue.RInv]
  · have hq : q.QInv := ⟨h1, by omega⟩
    obtain ⟨_, rc, ⟨rh1, rh2⟩, rd, rt, _⟩ := read_spec q cap hq
    have hdl : (q.read cap).2.data.length = q.data.length := by rw [rd]
    have hql : (q.read cap).2.queued < q.data.length := by
      rw [← contents_length _ ⟨rh1, rh2⟩, rc, List.length_drop]
      rw [contents_length _ hq] at *
      omega
    refine Or.inr ⟨rh1, ?_, by rw [hdl]; exact hql⟩
    rcases rt with rt | ⟨_, rt⟩
    · rw [hdl]; exact rt
    · rw [hdl, rt]; omega

theorem rinv_write (q : brspQueue) (p : List Nat) (h : q.RInv) : (q.write p).RInv := by
  have hq : q.QInv := RInv_QInv q h
  obtain ⟨_, winv, wlt, wt, wle⟩ := write_spec q p hq
  refine Or.inr ⟨winv.1, ?_, wlt⟩
  rcases wt with wt | wt
  · rcases h with ⟨h1, h2, h3⟩ | ⟨h1, h2, h3⟩
    · rw [wt, h3]; omega
    · rw [wt]; omega
  · rw [wt]; omega

/-- A queue operation issued by a client: a `write` of a byte list or a
`read` into a destination buffer of the given capacity. -/
inductive QOp where
  | wr (p : List Nat)
  | rd (cap : Nat)

/-- Run a sequence of interleaved queue operations, returning the final
queue state and the concatenation of all bytes returned by reads. -/
def runQ : brspQueue → List QOp → brspQueue × List Nat
  | q, [] => (q, [])
  | q, .wr p :: ops => runQ (q.write p) ops
  | q, .rd c :: ops =>
    let r := q.read c
    let s := runQ r.2 ops
    (s.1, r.1 ++ s.2)

/-- The concatenation of all bytes passed to writes in an op sequence. -/
def written : List QOp → List Nat
  | [] => []
  | .wr p :: ops => p ++ written ops
  | .rd _ :: ops => written ops

theorem runQ_spec (ops : List QOp) (q : brspQueue) (hq : q.QInv) :
    (runQ q ops).1.QInv ∧
    (runQ q ops).2 ++ (runQ q ops).1.contents = q.contents ++ written ops := by
  induction ops generalizing q with
  | nil => exact ⟨hq, by simp [runQ, written]⟩
  | cons op ops ih =>
    cases op with
    | wr p =>
      obtain ⟨wc, winv, _, _, _⟩ := write_spec q p hq
      obtain ⟨ih1, ih2⟩ := ih (q.write p) winv
      refine ⟨ih1, ?_⟩
      simp only [runQ, written]
      rw [ih2, wc, List.append_assoc]
    | rd c =>
      obtain ⟨rf, rc, rinv, _, _, _⟩ := read_spec q c hq
      obtain ⟨ih1, ih2⟩ := ih (q.read c).2 rinv
      refine ⟨ih1, ?_⟩
      simp only [runQ, written]
      rw [List.append_assoc, ih2, rc, rf, ← List.append_assoc, List.take_append_drop]

theorem runQ_rinv (ops : List QOp) (q : brspQueue) (h : q.RInv) : (runQ q ops).1.RInv := by
  induction ops generalizing q with
  | nil => exact h
  | cons op ops ih =>
    cases op with
    | wr p => exact ih _ (rinv_write q p h)
    | rd c => exact ih _ (rinv_read q c h)

theorem rinv_mod (q : brspQueue) (h : q.RInv) :
    (q.queued : ℤ) = ((q.head : ℤ) - q.tail) % (q.data.length : ℤ) := by
  rcases h with ⟨h1, h2, h3⟩ | ⟨h1, h2, h3⟩
  · simp [brspQueue.queued, h1, h2, h3]
  · unfold brspQueue.queued at h3 ⊢
    by_cases hc : q.tail ≤ q.head
    · rw [if_pos hc] at h3 ⊢
      rw [Nat.cast_sub hc, Int.emod_eq_of_lt (by omega) (by omega)]
    · rw [if_neg hc] at h3 ⊢
      rw [Nat.cast_sub (by omega), Nat.cast_add]
      rw [show (q.head : ℤ) - q.tail
          = ((q.data.length : ℤ) + q.head - q.tail) + (q.data.length : ℤ) * (-1) by ring]
      rw [Int.add_mul_emod_self_left, Int.emod_eq_of_lt (by omega) (by omega)]

theorem rinv_empty_iff (q : brspQueue) (h : q.RInv) : q.queued = 0 ↔ q.head = q.tail := by
  rcases h with ⟨h1, h2, h3⟩ | ⟨h1, h2, h3⟩
  · simp [brspQueue.queued, h1, h2, h3]
  · unfold brspQueue.queued at h3 ⊢
    by_cases hc : q.tail ≤ q.head
    · rw [if_pos hc] at h3 ⊢; omega
    · rw [if_neg hc] at h3 ⊢; omega

theorem rinv_drain (q : brspQueue) (cap : Nat) (h : q.RInv) :
    (q.read cap).2.queued = 0 → (q.read cap).2.head = 0 ∧ (q.read cap).2.tail = 0 := by
  intro h0
  have heq := (rinv_empty_iff _ (rinv_read q cap h)).mp h0
  exact (read_spec q cap (RInv_QInv q h)).2.2.2.2.2 heq

/-- C1.  Ring Queue round-trip: for every sequence of interleaved
write/read calls on a `brspQueue` starting from the zero state, the
concatenation of bytes returned by reads is a prefix of the concatenation
of bytes passed to writes, and equals it once `queued()` reaches 0 —
regardless of wrap-around or growth reallocation. -/
theorem queue_roundtrip (ops : List QOp) :
    (∃ rest, written ops = (runQ zeroQueue ops).2 ++ rest) ∧
    ((runQ zeroQueue ops).1.queued = 0 → (runQ zeroQueue ops).2 = written ops) := by
  have hz : zeroQueue.QInv := ⟨Nat.le_refl 0, Nat.le_refl 0⟩
  obtain ⟨hinv, heq⟩ := runQ_spec ops zeroQueue hz
  have hzc : zeroQueue.contents = [] := rfl
  rw [hzc, List.nil_append] at heq
  refine ⟨⟨(runQ zeroQueue ops).1.contents, heq.symm⟩, ?_⟩
  intro h0
  have hnil : (runQ zeroQueue ops).1.contents = [] := by
    rw [← List.length_eq_zero, contents_length _ hinv, h0]
  rw [← heq, hnil, List.append_nil]

/-- Witness for C1: a 1-byte write/read (allocating the 256-byte initial
buffer) followed by a 300-byte write (forcing growth past the 256-byte
capacity) and a 300-byte read returns exactly the written bytes. -/
theorem queue_roundtrip_witness :
    (runQ zeroQueue [QOp.wr [1], QOp.rd 1,
        QOp.wr (List.replicate 300 7), QOp.rd 300]).1.queued = 0 ∧
    (runQ zeroQueue [QOp.wr [1], QOp.rd 1,
        QOp.wr (List.replicate 300 7), QOp.rd 300]).2
      = written [QOp.wr [1], QOp.rd 1, QOp.wr (List.replicate 300 7), QOp.rd 300] :=
  ⟨by decide, (queue_roundtrip _).2 (by decide)⟩

/-- C9.  Ring Queue cursor invariant on every reachable state: queued
bytes equal `(head - tail) mod capacity`, the queue is empty iff
`head = tail`, the buffer is never completely full, a read that fully
drains the queue resets both cursors to 0, and a subsequent write stores
its bytes uncorrupted. -/
theorem queue_cursor_invariant (ops : List QOp) :
    ((((runQ zeroQueue ops).1.queued : ℤ)
        = (((runQ zeroQueue ops).1.head : ℤ) - (runQ zeroQueue ops).1.tail)
            % ((runQ zeroQueue ops).1.data.length : ℤ)) ∧
     ((runQ zeroQueue ops).1.queued = 0
        ↔ (runQ zeroQueue ops).1.head = (runQ zeroQueue ops).1.tail) ∧
     ((runQ zeroQueue ops).1.queued < (runQ zeroQueue ops).1.data.length
        ∨ (runQ zeroQueue ops).1.data.length = 0) ∧
     (∀ cap, ((runQ zeroQueue ops).1.read cap).2.queued = 0 →
        ((runQ zeroQueue ops).1.read cap).2.head = 0 ∧
        ((runQ zeroQueue ops).1.read cap).2.tail = 0) ∧
     (∀ p, ((runQ zeroQueue ops).1.write p).contents
        = (runQ zeroQueue ops).1.contents ++ p)) := by
  have hr := runQ_rinv ops zeroQueue rinv_zero
  refine ⟨rinv_mod _ hr, rinv_empty_iff _ hr, ?_,
    fun cap => rinv_drain _ cap hr, fun p => (write_spec _ p (RInv_QInv _ hr)).1⟩
  rcases hr with ⟨h1, _, _⟩ | ⟨_, _, h3⟩
  · exact Or.inr h1
  · exact Or.inl h3

/-- Witness for C9: after writing two bytes, a capacity-2 read fully
drains the queue and both cursors are reset to 0. -/
theorem queue_cursor_invariant_witness :
    ((runQ zeroQueue [QOp.wr [5, 6]]).1.read 2).2.queued = 0 ∧
    ((runQ zeroQueue [QOp.wr [5, 6]]).1.read 2).2.head = 0 ∧
    ((runQ zeroQueue [QOp.wr [5, 6]]).1.read 2).2.tail = 0 :=
  ⟨by decide, ((queue_cursor_invariant [QOp.wr [5, 6]]).2.2.2.1 2 (by decide)).1,
    ((queue_cursor_invariant [QOp.wr [5, 6]]).2.2.2.1 2 (by decide)).2⟩

/-!
## The BRSP engine

The engine loop (`BRSP.loop`) serializes all events into one handler at a
time; we embed it as a pure step function on an explicit state.  Reply
channels are modeled by request identifiers, and every channel send
performed by a handler (read replies, flush replies, and the physical
transmissions performed by the pump on the chunks it takes) is recorded as
an emitted `Output`.  Go `error` values are modeled by `Option GattError`
(`none` = nil).
-/

/-- The error taxonomy of brsp.go: `ErrNotBRSP`, `ErrTimeout`, `ErrClosed`
and opaque transport errors. -/
inductive GattError where
  | notBRSP
  | timeout
  | closed
  | other (n : Nat)
  deriving DecidableEq, Repr

/-- An observable effect of the engine: a reply on a read request's result
channel (carrying the copied bytes, so the Go count `n` is their length),
a reply on a flush request's channel, or a physical transmission of a
chunk by the writer pump. -/
inductive Output where
  | readReply (id : Nat) (bytes : List Nat) (err : Option GattError)
  | flushReply (id : Nat) (err : Option GattError)
  | transmit (bytes : List Nat)
  deriving DecidableEq, Repr

/-- An event arriving at the engine loop's select: a caller read request
(identified reply channel plus destination-buffer capacity), a caller
write, a caller flush request, an inbound notification (data plus its
error), the pump taking the current outgoing chunk, or a write-side
transport error reported by the pump. -/
inductive Event where
  | readReq (id : Nat) (cap : Nat)
  | writeReq (p : List Nat)
  | flushReq (id : Nat)
  | incoming (data : List Nat) (err : Option GattError)
  | takeChunk
  | writeErr (e : GattError)

/-- The mutable state owned by the engine: the two ring queues, the
transmit-mode flag, the current outgoing chunk (the meaningful prefix
`outData.data[:outData.n]` of the Go 20-byte buffer), the pending read and
flush request lists, and the captured read-side and write-side errors. -/
structure EngineState where
  inQueue : brspQueue
  outQueue : brspQueue
  txMode : Bool
  outData : List Nat
  readReqs : List (Nat × Nat)
  flushReqs : List Nat
  readError : Option GattError
  writeError : Option GattError
  deriving DecidableEq, Repr

/-- The zero state of a freshly opened BRSP bridge. -/
def initState : EngineState :=
  ⟨zeroQueue, zeroQueue, false, [], [], [], none, none⟩

/-- One step of the engine loop: dispatch one event to its handler
(brsp.go lines 115-190 and 232-266) and collect the channel sends it
performs.  `takeChunk` is selectable only in transmit mode (the
`outgoingData` case appears only in the `txMode` branch of the select);
when idle it is a no-op here.  Inbound notification data is truncated to
the 20-byte chunk buffer by the `onTx` callback (line 204), modeled by
`data.take 20`. -/
def step (s : EngineState) : Event → EngineState × List Output
  | .readReq id cap =>
    -- handleReadReq, lines 160-171
    if 0 < s.inQueue.queued then
      let r := s.inQueue.read cap
      ({ s with inQueue := r.2, readError := none },
        [.readReply id r.1 s.readError])
    else
      ({ s with readReqs := s.readReqs ++ [(id, cap)] }, [])
  | .writeReq p =>
    -- handleWriteReq, lines 177-190
    if s.txMode then
      ({ s with outQueue := s.outQueue.write p }, [])
    else
      let l := min p.length 20
      ({ s with outData := p.take l, txMode := true,
                outQueue := s.outQueue.write (p.drop l) }, [])
  | .flushReq id =>
    -- handleFlushReq, lines 115-122
    if s.txMode then
      ({ s with flushReqs := s.flushReqs ++ [id] }, [])
    else
      ({ s with writeError := none }, [.flushReply id s.writeError])
  | .incoming data err =>
    -- handleIncomingData, lines 124-143
    let d := data.take 20
    match s.readReqs with
    | rr :: rest =>
      let n := min rr.2 d.length
      ({ s with readReqs := rest,
                inQueue := if n < d.length
                  then s.inQueue.write (d.drop n) else s.inQueue },
        [.readReply rr.1 (d.take n) err])
    | [] =>
      ({ s with inQueue := s.inQueue.write d,
                readError := if err.isSome then err else s.readError }, [])
  | .takeChunk =>
    -- the pump (writer, lines 269-283) takes a copy of the current chunk
    -- and physically writes it when non-empty; the engine then runs
    -- handleOutgoingData, lines 145-158
    if s.txMode then
      let sent : List Output := if s.outData ≠ [] then [.transmit s.outData] else []
      let r := s.outQueue.read 20
      if r.1 ≠ [] then
        ({ s with outQueue := r.2, outData := r.1 }, sent)
      else if s.outData ≠ [] then
        ({ s with outQueue := r.2, outData := [] }, sent)
      else
        -- idle transition: answer every pending flush request; note that
        -- flushReqs is NOT cleared here, faithfully to the Go code
        ({ s with outQueue := r.2, txMode := false, writeError := none },
          sent ++ s.flushReqs.map (fun id => .flushReply id s.writeError))
    else (s, [])
  | .writeErr e =>
    -- handleWriteError, lines 173-175: overwrites any previous error
    ({ s with writeError := some e }, [])

/-- Run the engine loop over a sequence of events, concatenating the
outputs in order. -/
def runEngine (s : EngineState) : List Event → EngineState × List Output
  | [] => (s, [])
  | e :: es =>
    let r := step s e
    let t := runEngine r.1 es
    (t.1, r.2 ++ t.2)

/-- The physical transmissions among a list of outputs, in order. -/
def transmits : List Output → List (List Nat)
  | [] => []
  | .transmit b :: os => b :: transmits os
  | .readReply _ _ _ :: os => transmits os
  | .flushReply _ _ :: os => transmits os

/-- The channel sends performed by the deferred block of `BRSP.loop`
(lines 220-230) when the shutdown signal ends the loop: every entry of
`flushReqs` receives `ErrClosed`, then every entry of `readReqs` receives
a result with count 0 and `ErrClosed`. -/
def closeOutputs (s : EngineState) : List Output :=
  s.flushReqs.map (fun id => .flushReply id (some .closed)) ++
    s.readReqs.map (fun r => .readReply r.1 [] (some .closed))

theorem transmits_append (a b : List Output) :
    transmits (a ++ b) = transmits a ++ transmits b := by
  induction a with
  | nil => rfl
  | cons o os ih => cases o <;> simp [transmits, ih]

theorem transmits_map_flush (l : List Nat) (e : Option GattError) :
    transmits (l.map (fun id => Output.flushReply id e)) = [] := by
  induction l with
  | nil => rfl
  | cons x xs ih => simp [transmits, ih]

/-- C2 (code bug).  `handleOutgoingData` never clears `b.flushReqs` after
answering them at an idle transition, so a flush reply channel already
answered at one idle transition is sent to again at the next idle
transition: after Write, Flush, two chunk hand-offs (engine idles and
answers flush id 7), another Write and two more hand-offs, the reply to
flush id 7 is emitted a second time. -/
theorem flush_channel_reused :
    (runEngine initState [.writeReq [1], .flushReq 7, .takeChunk, .takeChunk,
        .writeReq [2], .takeChunk, .takeChunk]).2
      = [.transmit [1], .flushReply 7 none, .transmit [2], .flushReply 7 none] := by
  decide

/-- Counterexample to C3 as stated: with two captured write errors
outstanding, the next Flush reports the most recent one (`other 2`), not
the earliest (`other 1`) — `handleWriteError` overwrites the single
`writeError` field. -/
theorem flush_latest_error_cex :
    (runEngine initState [.writeErr (.other 1), .writeErr (.other 2),
        .flushReq 0]).2
      = [.flushReply 0 (some (.other 2))] ∧
    (some (GattError.other 2) : Option GattError) ≠ some (.other 1) := by
  decide

/-- C3 (amended).  Each captured write error overwrites any previously
captured one; a Flush issued while the engine is idle reports the most
recently captured error and clears it, so an immediately following Flush
reports no error.  With a single outstanding error (Write(A) failed at the
transport, Write(B) succeeded) the next Flush therefore reports A's
failure and a second immediate Flush reports nil. -/
theorem flush_latest_error (s : EngineState) (e1 e2 : GattError) (i j : Nat)
    (h : s.txMode = false) :
    (runEngine s [.writeErr e1, .writeErr e2, .flushReq i, .flushReq j]).2
      = [.flushReply i (some e2), .flushReply j none] ∧
    (runEngine s [.writeErr e1, .writeErr e2, .flushReq i, .flushReq j]).1.writeError
      = none ∧
    (runEngine s [.writeErr e1, .flushReq i, .flushReq j]).2
      = [.flushReply i (some e1), .flushReply j none] := by
  refine ⟨?_, ?_, ?_⟩ <;> simp [runEngine, step, h]

/-- Witness for C3's amended statement at a concrete idle state. -/
theorem flush_latest_error_witness :
    (runEngine initState [.writeErr (.other 1), .writeErr (.other 2),
        .flushReq 0, .flushReq 1]).2
      = [.flushReply 0 (some (.other 2)), .flushReply 1 none] :=
  (flush_latest_error initState (.other 1) (.other 2) 0 1 rfl).1

/-- Counterexample to C5 as stated: bytes [1,2] are queued with no error,
then a failing notification delivers byte [3]; a Read that drains only one
byte — queued strictly before the failing notification — nevertheless
reports that notification's error, because `handleReadReq` attaches the
single captured `readError` to whatever read drains next. -/
theorem read_error_positional_cex :
    (runEngine initState [.incoming [1, 2] none, .incoming [3] (some (.other 9)),
        .readReq 0 1]).2
      = [.readReply 0 [1] (some (.other 9))] ∧
    (some (GattError.other 9) : Option GattError) ≠ none := by
  decide

/-- C5 (amended).  A captured read-side error is surfaced by the next Read
that drains queued data, regardless of the queue position at which the
error occurred, and is cleared after being reported once: a second
draining Read reports no error. -/
theorem read_error_next_drain (s : EngineState) (id1 id2 c1 c2 : Nat)
    (hq : s.inQueue.QInv) (h1 : 0 < s.inQueue.queued)
    (h2 : c1 < s.inQueue.queued) :
    (runEngine s [.readReq id1 c1, .readReq id2 c2]).2
      = [.readReply id1 (s.inQueue.contents.take c1) s.readError,
         .readReply id2 ((s.inQueue.contents.drop c1).take c2) none] := by
  obtain ⟨rf, rc, rinv, _, _, _⟩ := read_spec s.inQueue c1 hq
  have hql : (s.inQueue.read c1).2.queued = s.inQueue.queued - c1 := by
    rw [← contents_length _ rinv, rc, List.length_drop, contents_length _ hq]
  have rf2 : ((s.inQueue.read c1).2.read c2).1
      = (s.inQueue.contents.drop c1).take c2 := by
    rw [(read_spec _ c2 rinv).1, rc]
  simp [runEngine, step, h1, hql, rf, rf2, (by omega : 0 < s.inQueue.queued - c1)]

/-- Witness for C5's amended statement: after the counterexample's two
notifications, the first Read (capacity 1) reports the error once, the
second Read drains the rest and reports none. -/
theorem read_error_next_drain_witness :
    (runEngine (runEngine initState [.incoming [1, 2] none,
        .incoming [3] (some (.other 9))]).1 [.readReq 0 1, .readReq 1 5]).2
      = [.readReply 0 [1] (some (.other 9)), .readReply 1 [2, 3] none] :=
  (read_error_next_drain (runEngine initState [.incoming [1, 2] none,
      .incoming [3] (some (.other 9))]).1 0 1 1 5
    (by decide) (by decide) (by decide)).trans (by decide)

/-- C6.  Pending read requests form a FIFO wait list: two Reads issued
while no inbound data is available are satisfied in issue order by the
next two inbound notifications, each reply carrying that notification's
bytes (truncated to its 20-byte chunk and the destination capacity) and
error. -/
theorem read_fifo (s : EngineState) (i1 c1 i2 c2 : Nat) (d1 d2 : List Nat)
    (e1 e2 : Option GattError) (h0 : s.readReqs = []) (hq0 : s.inQueue.queued = 0) :
    (runEngine s [.readReq i1 c1, .readReq i2 c2, .incoming d1 e1, .incoming d2 e2]).2
      = [.readReply i1 ((d1.take 20).take (min c1 (d1.take 20).length)) e1,
         .readReply i2 ((d2.take 20).take (min c2 (d2.take 20).length)) e2] := by
  simp [runEngine, step, h0, hq0]

/-- Witness for C6 from the initial state. -/
theorem read_fifo_witness :
    (runEngine initState [.readReq 0 3, .readReq 1 3, .incoming [1, 2] none,
        .incoming [4] none]).2
      = [.readReply 0 [1, 2] none, .readReply 1 [4] none] :=
  (read_fifo initState 0 3 1 3 [1, 2] [4] none none rfl rfl).trans (by decide)

/-- C4.  Fragmentation: a single 45-byte Write issued while the engine is
idle, with no other writes interleaved, produces exactly three physical
transmissions of lengths 20, 20 and 5, in that order — the three
consecutive slices of the payload — after which the engine returns to
idle.  (The pump takes the chunk four times: the fourth hand-off carries
an empty chunk and performs no physical write.) -/
theorem write_fragmentation (s : EngineState) (p : List Nat)
    (hl : p.length = 45) (ht : s.txMode = false)
    (hq : s.outQueue.QInv) (hc : s.outQueue.contents = []) :
    transmits (runEngine s [.writeReq p, .takeChunk, .takeChunk, .takeChunk,
        .takeChunk]).2 = [p.take 20, (p.drop 20).take 20, p.drop 40] ∧
    (p.take 20).length = 20 ∧ ((p.drop 20).take 20).length = 20 ∧
    (p.drop 40).length = 5 ∧
    (runEngine s [.writeReq p, .takeChunk, .takeChunk, .takeChunk,
        .takeChunk]).1.txMode = false := by
  have hmin : min p.length 20 = 20 := by omega
  have hne0 : p.take 20 ≠ [] := by
    apply List.ne_nil_of_length_pos
    rw [List.length_take]; omega
  have hne1 : (p.drop 20).take 20 ≠ [] := by
    apply List.ne_nil_of_length_pos
    rw [List.length_take, List.length_drop]; omega
  have hne2 : p.drop 40 ≠ [] := by
    apply List.ne_nil_of_length_pos
    rw [List.length_drop]; omega
  have hW := write_spec s.outQueue (p.drop 20) hq
  have hWc : (s.outQueue.write (p.drop 20)).contents = p.drop 20 := by
    rw [hW.1, hc, List.nil_append]
  have hs1 := read_spec (s.outQueue.write (p.drop 20)) 20 hW.2.1
  have hr1 : ((s.outQueue.write (p.drop 20)).read 20).1 = (p.drop 20).take 20 := by
    rw [hs1.1, hWc]
  have hr1c : ((s.outQueue.write (p.drop 20)).read 20).2.contents = p.drop 40 := by
    rw [hs1.2.1, hWc, List.drop_drop]
  have hs2 := read_spec ((s.outQueue.write (p.drop 20)).read 20).2 20 hs1.2.2.1
  have hr2 : (((s.outQueue.write (p.drop 20)).read 20).2.read 20).1 = p.drop 40 := by
    rw [hs2.1, hr1c]
    exact List.take_of_length_le (by rw [List.length_drop]; omega)
  have hr2c : (((s.outQueue.write (p.drop 20)).read 20).2.read 20).2.contents = [] := by
    rw [hs2.2.1, hr1c]
    exact List.drop_eq_nil_of_le (by rw [List.length_drop]; omega)
  have hs3 := read_spec (((s.outQueue.write (p.drop 20)).read 20).2.read 20).2 20
    hs2.2.2.1
  have hr3 : ((((s.outQueue.write (p.drop 20)).read 20).2.read 20).2.read 20).1
      = [] := by
    rw [hs3.1, hr2c, List.take_nil]
  have hr3c : ((((s.outQueue.write (p.drop 20)).read 20).2.read 20).2.read 20).2.contents
      = [] := by
    rw [hs3.2.1, hr2c, List.drop_nil]
  have hs4 := read_spec ((((s.outQueue.write (p.drop 20)).read 20).2.read 20).2.read
    20).2 20 hs3.2.2.1
  have hr4 : (((((s.outQueue.write (p.drop 20)).read 20).2.read 20).2.read
      20).2.read 20).1 = [] := by
    rw [hs4.1, hr3c, List.take_nil]
  refine ⟨?_, by rw [List.length_take]; omega,
    by rw [List.length_take, List.length_drop]; omega,
    by rw [List.length_drop]; omega, ?_⟩ <;>
    simp [runEngine, step, ht, hmin, hne0, hne1, hne2, hr1, hr2, hr3, hr4,
      transmits, transmits_append, transmits_map_flush]

/-- Witness for C4: the 45-byte payload `List.range 45` written to a
freshly opened engine. -/
theorem write_fragmentation_witness :
    transmits (runEngine initState [.writeReq (List.range 45), .takeChunk,
        .takeChunk, .takeChunk, .takeChunk]).2
      = [(List.range 45).take 20, ((List.range 45).drop 20).take 20,
         (List.range 45).drop 40] ∧
    (runEngine initState [.writeReq (List.range 45), .takeChunk, .takeChunk,
        .takeChunk, .takeChunk]).1.txMode = false :=
  ⟨(write_fragmentation initState (List.range 45) (by decide) rfl
      (by decide) rfl).1,
   (write_fragmentation initState (List.range 45) (by decide) rfl
      (by decide) rfl).2.2.2.2⟩

/-- The public `BRSP.Write` facade (brsp.go lines 67-71): it sends the
buffer to the engine as a write-request event and returns
`(len(p), nil)` unconditionally. -/
def BRSP.WriteCall (p : List Nat) : Event × (Nat × Option GattError) :=
  (.writeReq p, (p.length, none))

/-- C7.  For every input buffer, the public Write returns a count equal to
the input length and a nil error, and in every engine state the
write-request event produces no reply or error output — transport failures
are never surfaced through Write's return value. -/
theorem write_returns_len (p : List Nat) :
    (BRSP.WriteCall p).2 = (p.length, none) ∧
    ∀ s : EngineState, (step s (BRSP.WriteCall p).1).2 = [] := by
  refine ⟨rfl, fun s => ?_⟩
  cases htx : s.txMode <;> simp [step, BRSP.WriteCall, htx]

/-- C8.  When the shutdown signal ends the engine loop, the deferred block
answers every still-pending flush request with `ErrClosed` and every
still-pending read request with a count-0, `ErrClosed` result, so none of
them is left without a reply. -/
theorem close_answers_pending (s : EngineState) :
    (∀ r ∈ s.readReqs, Output.readReply r.1 [] (some .closed) ∈ closeOutputs s) ∧
    (∀ f ∈ s.flushReqs, Output.flushReply f (some .closed) ∈ closeOutputs s) := by
  constructor
  · intro r hr
    exact List.mem_append_right _ (List.mem_map_of_mem _ hr)
  · intro f hf
    exact List.mem_append_left _ (List.mem_map_of_mem _ hf)

/-- Witness for C8: a state with one pending read and one pending flush
request; both receive the closed error at shutdown. -/
theorem close_answers_pending_witness :
    Output.readReply 3 [] (some .closed)
        ∈ closeOutputs ⟨zeroQueue, zeroQueue, true, [], [(3, 5)], [7], none, none⟩ ∧
    Output.flushReply 7 (some .closed)
        ∈ closeOutputs ⟨zeroQueue, zeroQueue, true, [], [(3, 5)], [7], none, none⟩ :=
  ⟨(close_answers_pending _).1 (3, 5) (by decide),
   (close_answers_pending _).2 7 (by decide)⟩

/-!
## Discovery and OpenBRSP

`BRSP.discover` / `OpenBRSP` (brsp.go lines 73-113, 192-217, 285-305) are
embedded over an oracle model of the peripheral collaborator: each call
the bridge makes (discover services, discover characteristics, discover
descriptors, the two SetIndicateValue calls, the mode write) is made at
most once with fixed arguments, so the collaborator is a record of the
responses to those calls.  The four fixed 128-bit UUIDs are modeled as
four distinct tokens.
-/

/-- A discovered service handle, identified by its UUID token. -/
structure BService where
  uuid : Nat
  deriving DecidableEq, Repr

/-- A discovered characteristic handle, identified by its UUID token. -/
structure BChar where
  uuid : Nat
  deriving DecidableEq, Repr

/-- Token for `DA2B84F1-6279-48DE-BDC0-AFBEA0226079` (the BRSP service). -/
def brspServiceUUID : Nat := 0

/-- Token for `A87988B9-694C-479C-900E-95DFA6C00A24` (mode characteristic). -/
def brspModeUUID : Nat := 1

/-- Token for `BF03260C-7205-4C25-AF43-93B1C299D159` (Rx characteristic). -/
def brspRxUUID : Nat := 2

/-- Token for `18CDA784-4BD3-4370-85BB-BFED91EC86AF` (Tx characteristic). -/
def brspTxUUID : Nat := 3

/-- The peripheral collaborator: the responses to the calls `OpenBRSP`
makes, in program order. -/
structure Peripheral where
  svcResp : Except GattError (List BService)
  charResp : Except GattError (List BChar)
  descResp : Except GattError Unit
  setIndNilResp : Except GattError Unit
  setIndCbResp : Except GattError Unit
  writeModeResp : Except GattError Unit

/-- The service-selection loop of `discover` (lines 79-84): the first
returned service whose UUID equals the BRSP service UUID. -/
def findService (svcs : List BService) : Option BService :=
  svcs.find? (fun s => s.uuid == brspServiceUUID)

/-- One iteration of the characteristic-assignment loop (lines 94-103):
a matching characteristic overwrites the corresponding slot. -/
def assignStep (acc : Option BChar × Option BChar × Option BChar) (c : BChar) :
    Option BChar × Option BChar × Option BChar :=
  if c.uuid = brspModeUUID then (some c, acc.2.1, acc.2.2)
  else if c.uuid = brspRxUUID then (acc.1, some c, acc.2.2)
  else if c.uuid = brspTxUUID then (acc.1, acc.2.1, some c)
  else acc

/-- The characteristic-assignment loop over all returned characteristics:
the (mode, rx, tx) slots after the loop. -/
def assignChars (chars : List BChar) : Option BChar × Option BChar × Option BChar :=
  chars.foldl assignStep (none, none, none)

/-- `BRSP.discover` (lines 73-113): find the service, find all three
characteristics, then discover descriptors on Tx; `ErrNotBRSP` when the
service or any characteristic is missing. -/
def BRSP.discover (p : Peripheral) :
    Except GattError (BService × BChar × BChar × BChar) :=
  match p.svcResp with
  | .error e => .error e
  | .ok svcs =>
    match findService svcs with
    | none => .error .notBRSP
    | some s =>
      match p.charResp with
      | .error e => .error e
      | .ok chars =>
        match assignChars chars with
        | (some m, some r, some t) =>
          match p.descResp with
          | .error e => .error e
          | .ok _ => .ok (s, m, r, t)
        | _ => .error .notBRSP

/-- `BRSP.init` (lines 192-217): discover, enable indications (clearing
then setting the callback), and write the mode byte. -/
def BRSP.init (p : Peripheral) :
    Except GattError (BService × BChar × BChar × BChar) :=
  match BRSP.discover p with
  | .error e => .error e
  | .ok h =>
    match p.setIndNilResp with
    | .error e => .error e
    | .ok _ =>
      match p.setIndCbResp with
      | .error e => .error e
      | .ok _ =>
        match p.writeModeResp with
        | .error e => .error e
        | .ok _ => .ok h

/-- `OpenBRSP` (lines 285-305): on success, the discovered handles
together with the freshly started engine state (`go b.loop()` and
`go b.writer()` run only after `init` succeeds); on failure, an error and
no bridge — neither the engine loop nor the pump is started. -/
def OpenBRSP (p : Peripheral) :
    Except GattError ((BService × BChar × BChar × BChar) × EngineState) :=
  match BRSP.init p with
  | .error e => .error e
  | .ok h => .ok (h, initState)

theorem assign_mode_none (cs : List BChar)
    (acc : Option BChar × Option BChar × Option BChar) (ha : acc.1 = none)
    (h : ∀ c ∈ cs, ¬ c.uuid = brspModeUUID) : (cs.foldl assignStep acc).1 = none := by
  induction cs generalizing acc with
  | nil => exact ha
  | cons c cs ih =>
    rw [List.foldl_cons]
    refine ih _ ?_ (fun x hx => h x (List.mem_cons_of_mem _ hx))
    unfold assignStep
    rw [if_neg (h c (List.mem_cons_self c cs))]
    split_ifs <;> simpa using ha

theorem assign_rx_none (cs : List BChar)
    (acc : Option BChar × Option BChar × Option BChar) (ha : acc.2.1 = none)
    (h : ∀ c ∈ cs, ¬ c.uuid = brspRxUUID) : (cs.foldl assignStep acc).2.1 = none := by
  induction cs generalizing acc with
  | nil => exact ha
  | cons c cs ih =>
    rw [List.foldl_cons]
    refine ih _ ?_ (fun x hx => h x (List.mem_cons_of_mem _ hx))
    unfold assignStep
    split_ifs with h1 h2 h3 <;> simp_all

theorem assign_tx_none (cs : List BChar)
    (acc : Option BChar × Option BChar × Option BChar) (ha : acc.2.2 = none)
    (h : ∀ c ∈ cs, ¬ c.uuid = brspTxUUID) : (cs.foldl assignStep acc).2.2 = none := by
  induction cs generalizing acc with
  | nil => exact ha
  | cons c cs ih =>
    rw [List.foldl_cons]
    refine ih _ ?_ (fun x hx => h x (List.mem_cons_of_mem _ hx))
    unfold assignStep
    split_ifs with h1 h2 h3 <;> simp_all

/-- When the service is found but any of the three characteristic slots
is still empty after the assignment loop, `OpenBRSP` fails with
`ErrNotBRSP`. -/
theorem open_missing_char (p : Peripheral) (svcs : List BService) (s : BService)
    (cs : List BChar) (hs : p.svcResp = .ok svcs) (hf : findService svcs = some s)
    (hch : p.charResp = .ok cs)
    (h0 : (assignChars cs).1 = none ∨ (assignChars cs).2.1 = none ∨
      (assignChars cs).2.2 = none) :
    OpenBRSP p = .error .notBRSP := by
  rcases ha : assignChars cs with ⟨om, orx, otx⟩
  rw [ha] at h0
  dsimp only at h0
  cases om <;> cases orx <;> cases otx <;>
    simp_all [OpenBRSP, BRSP.init, BRSP.discover, hs, hf, hch, ha]

/-- C10.  Open succeeds only when the fixed service and all three fixed
characteristics are found on the peripheral; if the collaborator reports
the service but lacks any of the three characteristics — e.g. only two of
the three — or lacks the service, Open fails with `ErrNotBRSP` and
returns no bridge (so neither the engine loop nor the pump is started). -/
theorem open_requires_all_uuids :
    (∀ (p : Peripheral) x, OpenBRSP p = .ok x →
      (∃ svcs, p.svcResp = .ok svcs ∧ ∃ s ∈ svcs, s.uuid = brspServiceUUID) ∧
      (∃ cs, p.charResp = .ok cs ∧ (∃ c ∈ cs, c.uuid = brspModeUUID) ∧
        (∃ c ∈ cs, c.uuid = brspRxUUID) ∧ (∃ c ∈ cs, c.uuid = brspTxUUID))) ∧
    (∀ (p : Peripheral) svcs cs, p.svcResp = .ok svcs →
      (∃ s ∈ svcs, s.uuid = brspServiceUUID) → p.charResp = .ok cs →
      ((¬ ∃ c ∈ cs, c.uuid = brspModeUUID) ∨ (¬ ∃ c ∈ cs, c.uuid = brspRxUUID)
        ∨ (¬ ∃ c ∈ cs, c.uuid = brspTxUUID)) →
      OpenBRSP p = .error .notBRSP) ∧
    (∀ (p : Peripheral) svcs, p.svcResp = .ok svcs →
      (¬ ∃ s ∈ svcs, s.uuid = brspServiceUUID) →
      OpenBRSP p = .error .notBRSP) := by
  refine ⟨?_, ?_, ?_⟩
  · intro p x hx
    rcases hs : p.svcResp with es | svcs
    · simp [OpenBRSP, BRSP.init, BRSP.discover, hs] at hx
    rcases hf : findService svcs with _ | s
    · simp [OpenBRSP, BRSP.init, BRSP.discover, hs, hf] at hx
    rcases hch : p.charResp with ec | cs
    · simp [OpenBRSP, BRSP.init, BRSP.discover, hs, hf, hch] at hx
    have hserv : ∃ s ∈ svcs, s.uuid = brspServiceUUID := by
      refine ⟨s, List.mem_of_find?_eq_some hf, ?_⟩
      simpa using List.find?_some hf
    refine ⟨⟨svcs, rfl, hserv⟩, cs, rfl, ?_, ?_, ?_⟩
    · by_contra hcon
      push_neg at hcon
      have h0 := assign_mode_none cs (none, none, none) rfl hcon
      have he := open_missing_char p svcs s cs hs hf hch (Or.inl h0)
      rw [he] at hx
      exact Except.noConfusion hx
    · by_contra hcon
      push_neg at hcon
      have h0 := assign_rx_none cs (none, none, none) rfl hcon
      have he := open_missing_char p svcs s cs hs hf hch (Or.inr (Or.inl h0))
      rw [he] at hx
      exact Except.noConfusion hx
    · by_contra hcon
      push_neg at hcon
      have h0 := assign_tx_none cs (none, none, none) rfl hcon
      have he := open_missing_char p svcs s cs hs hf hch (Or.inr (Or.inr h0))
      rw [he] at hx
      exact Except.noConfusion hx
  · intro p svcs cs hs hserv hch hmiss
    have hf : ∃ s, findService svcs = some s := by
      obtain ⟨s, hmem, huuid⟩ := hserv
      have : (svcs.find? (fun s => s.uuid == brspServiceUUID)).isSome :=
        List.find?_isSome.mpr ⟨s, hmem, by simpa using huuid⟩
      exact Option.isSome_iff_exists.mp this
    obtain ⟨s, hf⟩ := hf
    refine open_missing_char p svcs s cs hs hf hch ?_
    rcases hmiss with hm | hm | hm
    · push_neg at hm
      exact Or.inl (assign_mode_none cs (none, none, none) rfl hm)
    · push_neg at hm
      exact Or.inr (Or.inl (assign_rx_none cs (none, none, none) rfl hm))
    · push_neg at hm
      exact Or.inr (Or.inr (assign_tx_none cs (none, none, none) rfl hm))
  · intro p svcs hs hnone
    have hf : findService svcs = none := by
      apply List.find?_eq_none.mpr
      intro a ha
      push_neg at hnone
      simpa using hnone a ha
    simp [OpenBRSP, BRSP.init, BRSP.discover, hs, hf]

/-- Witness for C10: a collaborator reporting the service and only the
mode and rx characteristics (no tx); Open fails with the NotSupported
error. -/
theorem open_requires_all_uuids_witness :
    OpenBRSP ⟨.ok [⟨0⟩], .ok [⟨1⟩, ⟨2⟩], .ok (), .ok (), .ok (), .ok ()⟩
      = .error .notBRSP :=
  open_requires_all_uuids.2.1 _ [⟨0⟩] [⟨1⟩, ⟨2⟩] rfl ⟨⟨0⟩, by decide, rfl⟩ rfl
    (Or.inr (Or.inr (by decide)))

end GattBrsp
